/-
Verification of the wanikani-review program (src/wanikani.py, src/main.py)
against its natural-language specification.

Shallow embedding: the pure logic of the two subsystems (the review
aggregation pipeline and the streaming-response multiplexer) is translated
into executable Lean definitions; network traffic, real time, and the
display layer are abstracted as explicit parameters (oracles) of those
definitions, so every network-dependent function is a pure function of the
responses it would receive.
-/
import Mathlib

set_option linter.unusedVariables false

namespace WKReview

/-! ## Python exception model

Only the exception classes that the two source files can raise or catch are
modelled.  `ExcClass.exception` is a *plain* `Exception` (the class raised by
`raise Exception("...")` in `get_vocab`); `reviewEndpointDown` is the
user-defined subclass `ReviewEndpointDown`; `httpError` and `timeout` stand
for `requests.exceptions.HTTPError` (from `resp.raise_for_status()`) and
`requests.exceptions.Timeout`.  All four are subclasses of Python's
`Exception`, hence all are caught by `except Exception`.  `SystemExit`
(raised by `sys.exit`) is *not* an `Exception` subclass and is modelled
separately in the `Outcome` type below. -/

inductive ExcClass : Type
  | reviewEndpointDown
  | exception
  | httpError
  | timeout
  deriving DecidableEq, Repr

/-- A raised Python exception: its class together with its message. -/
structure PyExc : Type where
  cls : ExcClass
  msg : String
  deriving DecidableEq, Repr

/-! ## Streaming-response multiplexer (src/main.py, `gen_chunks`, lines 13-53)

The inner loop of `gen_chunks` (lines 41-52) processes one `part` at a time:

    text = getattr(part, "text", "")
    if not text:
        continue
    if part.thought:
        thoughts += str(text)
        thought_box.markdown(thoughts)
    else:
        finish_thinking()
        thoughts_folded = True
        answer += str(text)
        yield text

`finish_thinking` runs its body (fold the live thought panel) only when
`thoughts_folded` is still false.  A part whose `text` attribute is missing
or `None` gives `text = ""` via the `getattr` default / `if not text`, so a
fragment is modelled as a string (empty means absent) plus the thought flag.
Side effects and yields are recorded as an explicit event trace. -/

/-- One generation fragment: `{ text, thought }` (a `part` of a candidate). -/
structure Part : Type where
  text : String
  thought : Bool
  deriving DecidableEq, Repr

/-- The mutable locals of `gen_chunks`: `answer`, `thoughts`, `thoughts_folded`. -/
structure MuxState : Type where
  answer : String
  thoughts : String
  thoughtsFolded : Bool
  deriving DecidableEq, Repr

/-- Observable actions of `gen_chunks`: a live thought-panel update
(`thought_box.markdown(thoughts)` with the full text so far), the one-time
fold of the thought panel (the body of `finish_thinking` when it runs), and a
yielded answer increment. -/
inductive MuxEvent : Type
  | thoughtUpdate (s : String)
  | foldThoughts
  | yieldText (s : String)
  deriving DecidableEq, Repr

/-- The initial state of `gen_chunks`: `answer = ""`, `thoughts = ""`,
`thoughts_folded = False`. -/
def muxInit : MuxState := ⟨"", "", false⟩

/-- Processing of a single fragment by the loop body above: the updated state
and the events it emits, in order. -/
def gen_step (st : MuxState) (p : Part) : MuxState × List MuxEvent :=
  if p.text = "" then (st, [])
  else if p.thought then
    ({ st with thoughts := st.thoughts ++ p.text },
     [MuxEvent.thoughtUpdate (st.thoughts ++ p.text)])
  else
    ({ st with answer := st.answer ++ p.text, thoughtsFolded := true },
     (if st.thoughtsFolded then [] else [MuxEvent.foldThoughts])
       ++ [MuxEvent.yieldText p.text])

/-- Running the loop over a whole fragment stream from a given state. -/
def gen_run (st : MuxState) : List Part → MuxState × List MuxEvent
  | [] => (st, [])
  | p :: ps =>
    let s1 := gen_step st p
    let s2 := gen_run s1.1 ps
    (s2.1, s1.2 ++ s2.2)

/-- `gen_chunks` on the flattened stream of parts, from the initial state. -/
def gen_chunks (ps : List Part) : MuxState × List MuxEvent :=
  gen_run muxInit ps

/-- The answer increments yielded along a trace, in order. -/
def yieldTexts : List MuxEvent → List String
  | [] => []
  | MuxEvent.yieldText s :: es => s :: yieldTexts es
  | _ :: es => yieldTexts es

/-- Whether an event is the fold of the thought panel. -/
def isFold : MuxEvent → Bool
  | MuxEvent.foldThoughts => true
  | _ => false

/-- How many times the thought panel is folded along a trace. -/
def foldCount (es : List MuxEvent) : Nat := es.countP isFold

/-- Concatenation of a list of strings, in order. -/
def concatStrings : List String → String
  | [] => ""
  | s :: ss => s ++ concatStrings ss

/-! ## Paginated fetcher (src/wanikani.py, `fetch_paginated`, lines 25-33)

    def fetch_paginated(url, headers):
        while url:
            resp = requests.get(url, headers=headers, timeout=30)
            if resp.status_code >= 500:
                raise ReviewEndpointDown(resp.text)
            resp.raise_for_status()
            payload = resp.json()
            yield from payload["data"]
            url = payload["pages"]["next_url"]

Two complementary models:

* `handle_response` models one iteration's treatment of one HTTP request's
  outcome (lines 27-30): `requests.get` either returns a response with a
  status code or raises `requests.exceptions.Timeout` (which the loop does
  not catch, so it propagates); a `status_code >= 500` raises
  `ReviewEndpointDown(resp.text)`; otherwise `resp.raise_for_status()`
  raises `requests.exceptions.HTTPError` when `400 <= status < 600`
  (only `400..499` is reachable here) and returns normally below 400.

* `fetch_paginated` models the successful loop over a chain of page
  envelopes `{ data, pages.next_url }`: the server is abstracted as the
  list of pages the cursor chain visits, in order; the loop yields a page's
  `data` and continues exactly while `next_url` is present. -/

/-- One page envelope `{ "data": [...], "pages": { "next_url": ... } }`;
records are left abstract (`α`). -/
structure Page (α : Type) : Type where
  data : List α
  next_url : Option String
  deriving DecidableEq, Repr

/-- Outcome of one `requests.get` call: a network timeout, or a response
with a status code, a body text and (for successful statuses) a parsed
page payload. -/
inductive ReqResult (α : Type) : Type
  | timeout
  | response (status : Nat) (body : String) (payload : Page α)
  deriving DecidableEq, Repr

/-- Lines 27-30 of `fetch_paginated` applied to one request's outcome. -/
def handle_response {α : Type} : ReqResult α → Except PyExc (Page α)
  | ReqResult.timeout => Except.error ⟨ExcClass.timeout, "requests.exceptions.Timeout"⟩
  | ReqResult.response status body payload =>
    if 500 ≤ status then Except.error ⟨ExcClass.reviewEndpointDown, body⟩
    else if 400 ≤ status then Except.error ⟨ExcClass.httpError, body⟩
    else Except.ok payload

/-- The `while url:` loop of `fetch_paginated` on the chain of pages the
cursor visits: yield the page's `data`, then continue iff `next_url` is
present. -/
def fetch_paginated {α : Type} : List (Page α) → List α
  | [] => []
  | p :: ps =>
    p.data ++ (match p.next_url with
      | none => []
      | some _ => fetch_paginated ps)

/-- A list of pages is a well-formed cursor chain when every page except the
last carries a `next_url` and the last page's `next_url` is absent. -/
def wellFormedChain {α : Type} : List (Page α) → Bool
  | [] => true
  | p :: ps => (p.next_url.isNone == ps.isEmpty) && wellFormedChain ps

/-! ## Batching (src/wanikani.py, `chunked`, lines 36-38)

    def chunked(seq, size=CHUNK):
        for i in range(0, len(seq), size):
            yield seq[i : i + size]

with `CHUNK = 1000`.  `seq[i : i + size]` is `(seq.drop i).take size`, and
stepping `i` by `size` over `range(0, len(seq), size)` is the recursion
below.  (For `size = 0` Python's `range` would raise `ValueError`; the only
call site uses `size = CHUNK = 1000`.) -/

/-- Max IDs per `subjects` call, imposed by the remote API. -/
def CHUNK : Nat := 1000

/-- `chunked(seq, size)` as the list of successive slices of length `size`. -/
def chunked : List Int → Nat → List (List Int)
  | [], _ => []
  | x :: xs, size =>
    if size = 0 then []
    else (x :: xs).take size :: chunked ((x :: xs).drop size) size
  termination_by seq _ => seq.length
  decreasing_by
    simp only [List.length_drop, List.length_cons]
    omega

/-! ## Batched subject lookup (src/wanikani.py, `gather_vocab_subjects`, lines 41-50)

    def gather_vocab_subjects(subject_ids, headers):
        vocab = []
        for batch in chunked(list(subject_ids)):
            ids_str = ",".join(map(str, batch))
            url = f"{WK_API_URL}/subjects?ids={ids_str}"
            for subj in fetch_paginated(url, headers):
                if subj["object"] == "vocabulary":
                    vocab.append(subj["data"]["slug"])
        return sorted(set(vocab), key=str.lower)

The network is abstracted: the streamed subject records for the whole batch
loop are a list of `Subject`s, so the `vocab` list before the final line is
`collectVocabSlugs subjects`.  CPython gives no guarantee about the
iteration order of `set(vocab)` (string hashing is randomized per process),
so the final line is modelled in two steps: any enumeration of the set —
a duplicate-free list with the same members as `vocab`, captured by
`isSetOrder` — followed by `sorted(..., key=str.lower)`, which is a stable
sort on the lower-cased key (`pySortedByLower`). -/

/-- One streamed subject record: its `object` kind tag and `data.slug`. -/
structure Subject : Type where
  object : String
  slug : String
  deriving DecidableEq, Repr

/-- The `vocab` accumulator of `gather_vocab_subjects`: slugs of the
vocabulary-kind records, in stream order. -/
def collectVocabSlugs (subjects : List Subject) : List String :=
  (subjects.filter (fun s => s.object == "vocabulary")).map Subject.slug

/-- `s` is a possible iteration order of `set(orig)`: duplicate-free, with
exactly the members of `orig`. -/
def isSetOrder (orig s : List String) : Prop :=
  s.Nodup ∧ (∀ x ∈ s, x ∈ orig) ∧ (∀ x ∈ orig, x ∈ s)

instance (orig s : List String) : Decidable (isSetOrder orig s) := by
  unfold isSetOrder
  infer_instance

/-- `str.lower` (the sort key), as a character list; agrees with Python on
the ASCII data in play. -/
def pyLower (s : String) : List Char := s.data.map Char.toLower

/-- Lexicographic `≤` on character lists by code point — Python's string
comparison. -/
def charListLe : List Char → List Char → Bool
  | [], _ => true
  | _ :: _, [] => false
  | c :: cs, d :: ds =>
    if c = d then charListLe cs ds
    else decide (c < d)

/-- Key comparison of `sorted(..., key=str.lower)`: compare the lower-cased
keys. -/
def keyLe (a b : String) : Bool := charListLe (pyLower a) (pyLower b)

/-- Insert `x` after every element whose key is ≤ its key (stable insertion). -/
def insertByLower (x : String) : List String → List String
  | [] => [x]
  | y :: ys =>
    if keyLe y x then y :: insertByLower x ys
    else x :: y :: ys

/-- `sorted(l, key=str.lower)`: a stable sort by the lower-cased key.
Python's `sorted` is stable, and any two stable sorts under the same key
agree, so insertion order left-to-right reproduces it. -/
def pySortedByLower (l : List String) : List String :=
  l.foldl (fun acc x => insertByLower x acc) []

/-- The value `gather_vocab_subjects` returns, given the streamed subject
records and the iteration order `setOrder` that `set(vocab)` produced
(meaningful under `isSetOrder (collectVocabSlugs subjects) setOrder`). -/
def gather_vocab_subjects (subjects : List Subject) (setOrder : List String) : List String :=
  pySortedByLower setOrder

/-! ## Aggregation (src/wanikani.py, `get_vocab`, lines 82-111)

    def get_vocab(minutes=30, api_token=""):
        token = api_token or os.getenv("WANIKANI_API_TOKEN")
        if not token:
            print("API token required ...", file=sys.stderr)
            sys.exit(1)
        since = iso_now_minus(minutes)
        headers = {"Authorization": f"Bearer {token}"}
        try:
            ids = recent_subject_ids_via_assignments(since, headers)
        except ReviewEndpointDown as e:
            print("Reviews endpoint down", file=sys.stderr)
            raise ReviewEndpointDown(e)
        if not ids:
            print("No recent reviews found", file=sys.stderr)
            raise Exception("No recent reviews found")
        vocab = gather_vocab_subjects(ids, headers)
        if not vocab:
            print("No vocabulary among those reviews", file=sys.stderr)
            raise Exception("No vocabulary among those reviews")
        return vocab

Time and the network are abstracted into a `World`: what the two network
calls would produce for this invocation (each may raise).  `sys.exit(1)`
raises `SystemExit`, which is *not* a subclass of `Exception`; a function
call therefore has three outcomes. -/

/-- Outcome of a Python call: a return value, a raised `Exception` subclass,
or process exit via `SystemExit` (`sys.exit`). -/
inductive Outcome (α : Type) : Type
  | ok (a : α)
  | raised (e : PyExc)
  | exited (code : Nat)
  deriving DecidableEq, Repr

/-- The environment and network behaviour one `get_vocab` call observes:
the result of `recent_subject_ids_via_assignments` (the resolved subject
IDs, or a raised exception) and, per ID set, the result of
`gather_vocab_subjects`. -/
structure World : Type where
  resolve : Except PyExc (List Int)
  gather : List Int → Except PyExc (List String)

/-- `get_vocab(minutes, api_token)` with the environment variable
`WANIKANI_API_TOKEN` (`none` when unset) and the world as explicit inputs.
`api_token or os.getenv(...)` selects the parameter when it is non-empty;
`if not token` is true for `None` and for the empty string. -/
def get_vocab (minutes : Nat) (api_token : String) (env : Option String)
    (w : World) : Outcome (List String) :=
  let token : Option String := if api_token = "" then env else some api_token
  match token with
  | none => Outcome.exited 1
  | some t =>
    if t = "" then Outcome.exited 1
    else
      match w.resolve with
      | Except.error e =>
        if e.cls = ExcClass.reviewEndpointDown then
          Outcome.raised ⟨ExcClass.reviewEndpointDown, e.msg⟩
        else Outcome.raised e
      | Except.ok ids =>
        if ids = [] then
          Outcome.raised ⟨ExcClass.exception, "No recent reviews found"⟩
        else
          match w.gather ids with
          | Except.error e => Outcome.raised e
          | Except.ok vocab =>
            if vocab = [] then
              Outcome.raised ⟨ExcClass.exception, "No vocabulary among those reviews"⟩
            else Outcome.ok vocab

/-! ## Call site (src/main.py, lines 67-75)

    try:
        vocab = get_vocab(minutes=1440)
    except Exception as e:
        print(e, file=sys.stderr)
        vocab = []
    input_text = "\n\n\n".join(vocab)

`get_vocab` is called with `api_token` left at its default `""`.
`except Exception` catches every raised `Exception` subclass but not
`SystemExit`, which propagates and aborts the session. -/

/-- What the session start does with the aggregation outcome: continue with
a vocabulary list (possibly empty), or abort. -/
inductive SessionOutcome : Type
  | continues (vocab : List String)
  | aborts (code : Nat)
  deriving DecidableEq, Repr

/-- The `get_vocab` call site in src/main.py. -/
def sessionStart (env : Option String) (w : World) : SessionOutcome :=
  match get_vocab 1440 "" env w with
  | Outcome.ok v => SessionOutcome.continues v
  | Outcome.raised _ => SessionOutcome.continues []
  | Outcome.exited c => SessionOutcome.aborts c

/-- The class of the exception an outcome raised, when it raised one. -/
def raisedClass {α : Type} : Outcome α → Option ExcClass
  | Outcome.raised e => some e.cls
  | _ => none

/-- A world where everything succeeds: one resolved ID, one vocabulary slug. -/
def demoWorld : World :=
  { resolve := Except.ok [101], gather := fun _ => Except.ok ["rakko"] }

/-- The spec's dedup-and-sort scenario: raw slugs
`["banana", "Apple", "apple", "Cherry"]`, all of vocabulary kind. -/
def demoSubjects : List Subject :=
  [⟨"vocabulary", "banana"⟩, ⟨"vocabulary", "Apple"⟩,
   ⟨"vocabulary", "apple"⟩, ⟨"vocabulary", "Cherry"⟩]

/-! ## Auxiliary lemmas: the multiplexer loop -/

theorem gen_run_cons (st : MuxState) (p : Part) (ps : List Part) :
    gen_run st (p :: ps) =
      ((gen_run (gen_step st p).1 ps).1,
       (gen_step st p).2 ++ (gen_run (gen_step st p).1 ps).2) := rfl

theorem gen_step_of_empty (st : MuxState) (p : Part) (h : p.text = "") :
    gen_step st p = (st, []) := by
  simp [gen_step, h]

theorem gen_step_of_thought (st : MuxState) (p : Part)
    (h1 : p.thought = true) (h2 : p.text ≠ "") :
    gen_step st p =
      ({ st with thoughts := st.thoughts ++ p.text },
       [MuxEvent.thoughtUpdate (st.thoughts ++ p.text)]) := by
  simp [gen_step, h1, h2]

theorem gen_step_of_answer (st : MuxState) (p : Part)
    (h1 : p.thought = false) (h2 : p.text ≠ "") :
    gen_step st p =
      ({ st with answer := st.answer ++ p.text, thoughtsFolded := true },
       (if st.thoughtsFolded then [] else [MuxEvent.foldThoughts])
         ++ [MuxEvent.yieldText p.text]) := by
  simp [gen_step, h1, h2]

theorem foldCount_append (a b : List MuxEvent) :
    foldCount (a ++ b) = foldCount a + foldCount b := by
  simp [foldCount, List.countP_append]

theorem gen_run_append (l1 l2 : List Part) (st : MuxState) :
    gen_run st (l1 ++ l2) =
      ((gen_run (gen_run st l1).1 l2).1,
       (gen_run st l1).2 ++ (gen_run (gen_run st l1).1 l2).2) := by
  induction l1 generalizing st with
  | nil => simp [gen_run]
  | cons p ps ih =>
    rw [List.cons_append, gen_run_cons, gen_run_cons, ih]
    simp [List.append_assoc]

theorem gen_step_folded (st : MuxState) (p : Part) (h : st.thoughtsFolded = true) :
    foldCount (gen_step st p).2 = 0 ∧ ((gen_step st p).1).thoughtsFolded = true := by
  by_cases ht : p.text = ""
  · rw [gen_step_of_empty st p ht]
    exact ⟨rfl, h⟩
  · cases hth : p.thought
    · rw [gen_step_of_answer st p hth ht, h]
      exact ⟨rfl, rfl⟩
    · rw [gen_step_of_thought st p hth ht]
      exact ⟨rfl, h⟩

theorem gen_run_folded (ps : List Part) (st : MuxState) (h : st.thoughtsFolded = true) :
    foldCount (gen_run st ps).2 = 0 := by
  induction ps generalizing st with
  | nil => rfl
  | cons p ps ih =>
    obtain ⟨h1, h2⟩ := gen_step_folded st p h
    rw [gen_run_cons]
    show foldCount ((gen_step st p).2 ++ (gen_run (gen_step st p).1 ps).2) = 0
    rw [foldCount_append, h1, ih _ h2]

theorem gen_run_thought_only (ps : List Part) (st : MuxState)
    (h : ∀ q ∈ ps, q.thought = true ∨ q.text = "") :
    (gen_run st ps).1.thoughtsFolded = st.thoughtsFolded ∧
      foldCount (gen_run st ps).2 = 0 := by
  induction ps generalizing st with
  | nil => exact ⟨rfl, rfl⟩
  | cons p ps ih =>
    have hrest : ∀ q ∈ ps, q.thought = true ∨ q.text = "" :=
      fun q hq => h q (List.mem_cons_of_mem _ hq)
    rw [gen_run_cons]
    by_cases ht : p.text = ""
    · rw [gen_step_of_empty st p ht]
      obtain ⟨i1, i2⟩ := ih st hrest
      exact ⟨i1, by rw [show (((st, ([] : List MuxEvent)).2 ++ (gen_run st ps).2)) =
        (gen_run st ps).2 from List.nil_append _, i2]⟩
    · have hth : p.thought = true := by
        rcases h p (List.mem_cons_self p ps) with h' | h'
        · exact h'
        · exact absurd h' ht
      rw [gen_step_of_thought st p hth ht]
      obtain ⟨i1, i2⟩ := ih { st with thoughts := st.thoughts ++ p.text } hrest
      refine ⟨i1, ?_⟩
      rw [foldCount_append, i2]
      rfl

/-- C9: a generation fragment whose text is empty (or absent, which the
`getattr` default turns into the empty string) is ignored entirely by
`gen_chunks`: the loop body leaves the state (both buffers and the folded
flag) unchanged and emits no side-effect and no yield, whatever the thought
flag — in particular an empty first non-thought fragment does not fold — and
removing such a fragment from the stream does not change the run at all. -/
theorem gen_chunks_ignores_empty_fragments :
    ∀ (st : MuxState) (b : Bool) (ps : List Part),
      gen_step st ⟨"", b⟩ = (st, []) ∧
        gen_run st (Part.mk "" b :: ps) = gen_run st ps := by
  intro st b ps
  refine ⟨gen_step_of_empty st _ rfl, ?_⟩
  rw [gen_run_cons, gen_step_of_empty st _ rfl]
  simp

/-- C3 stated on the code as written fails at the empty-text boundary: in
the stream `[⟨"", false⟩]` a non-thought fragment arrives, yet the fold
never fires, because the loop skips any fragment whose text is empty
(`if not text: continue`) before looking at the thought flag. -/
theorem gen_chunks_fold_skipped_for_empty_first_answer :
    (Part.mk "" false).thought = false ∧
      foldCount (gen_chunks [Part.mk "" false]).2 = 0 := by
  decide

/-- C3 (amended to non-empty fragments): over any fragment stream,
`finish_thinking`'s fold of the thought panel fires exactly once, at the
moment the first non-thought fragment with non-empty text arrives — never
when the stream holds no such fragment — and thought fragments arriving
after that point are still appended to the thought buffer (with a live
update) but never fold again: (1) a stream whose fragments are all thoughts
or empty produces no fold; (2) splitting a stream at its first non-empty
non-thought fragment `p`, the event trace is the fold-free prefix trace,
then `foldThoughts` immediately followed by `p`'s yield, then a fold-free
remainder, for a total fold count of exactly 1; (3) from a folded state, a
non-empty thought fragment only extends the thought buffer and emits its
live update. -/
theorem gen_chunks_folds_exactly_once :
    (∀ ps : List Part, (∀ q ∈ ps, q.thought = true ∨ q.text = "") →
        foldCount (gen_chunks ps).2 = 0) ∧
    (∀ (pre post : List Part) (p : Part),
        p.thought = false → p.text ≠ "" →
        (∀ q ∈ pre, q.thought = true ∨ q.text = "") →
        (gen_chunks (pre ++ p :: post)).2 =
            (gen_chunks pre).2 ++ MuxEvent.foldThoughts :: MuxEvent.yieldText p.text ::
              (gen_run { (gen_chunks pre).1 with
                          answer := (gen_chunks pre).1.answer ++ p.text,
                          thoughtsFolded := true } post).2 ∧
          foldCount (gen_chunks (pre ++ p :: post)).2 = 1) ∧
    (∀ (st : MuxState) (q : Part),
        st.thoughtsFolded = true → q.thought = true → q.text ≠ "" →
        gen_step st q =
          ({ st with thoughts := st.thoughts ++ q.text },
           [MuxEvent.thoughtUpdate (st.thoughts ++ q.text)])) := by
  refine ⟨?_, ?_, ?_⟩
  · intro ps h
    exact (gen_run_thought_only ps muxInit h).2
  · intro pre post p h1 h2 hpre
    obtain ⟨hfold, hcnt⟩ := gen_run_thought_only pre muxInit hpre
    have hfold' : (gen_run muxInit pre).1.thoughtsFolded = false := hfold
    unfold gen_chunks
    rw [gen_run_append, gen_run_cons, gen_step_of_answer _ p h1 h2, hfold']
    have hpost : foldCount (gen_run
        { (gen_run muxInit pre).1 with
            answer := (gen_run muxInit pre).1.answer ++ p.text,
            thoughtsFolded := true } post).2 = 0 :=
      gen_run_folded post _ rfl
    constructor
    · simp
    · rw [foldCount_append, hcnt, foldCount_append]
      rw [hpost]
      rfl
  · intro st q h hq1 hq2
    exact gen_step_of_thought st q hq1 hq2

/-- Closed instance of the amended C3 theorem: on the stream
`[thought "a", answer "X", thought "b", answer "Y"]` the fold fires exactly
once. -/
theorem gen_chunks_folds_exactly_once_witness :
    foldCount (gen_chunks ([Part.mk "a" true] ++
      Part.mk "X" false :: [Part.mk "b" true, Part.mk "Y" false])).2 = 1 :=
  (gen_chunks_folds_exactly_once.2.1 [Part.mk "a" true]
    [Part.mk "b" true, Part.mk "Y" false] (Part.mk "X" false)
    rfl (by decide) (by decide)).2

/-! ## Auxiliary lemmas: yields and the answer buffer -/

theorem yieldTexts_append (a b : List MuxEvent) :
    yieldTexts (a ++ b) = yieldTexts a ++ yieldTexts b := by
  induction a with
  | nil => rfl
  | cons e es ih => cases e <;> simp [yieldTexts, ih]

theorem gen_run_yields (ps : List Part) (st : MuxState) :
    yieldTexts (gen_run st ps).2 =
      (ps.filter (fun p => !p.thought && !(p.text == ""))).map Part.text := by
  induction ps generalizing st with
  | nil => rfl
  | cons p ps ih =>
    rw [gen_run_cons]
    show yieldTexts ((gen_step st p).2 ++ (gen_run (gen_step st p).1 ps).2) = _
    rw [yieldTexts_append]
    by_cases ht : p.text = ""
    · rw [gen_step_of_empty st p ht]
      simp [List.filter_cons, ht, yieldTexts, ih]
    · cases hth : p.thought
      · rw [gen_step_of_answer st p hth ht]
        cases hf : st.thoughtsFolded <;>
          simp [List.filter_cons, hth, ht, yieldTexts, ih]
      · rw [gen_step_of_thought st p hth ht]
        simp [List.filter_cons, hth, yieldTexts, ih]

theorem gen_run_answer (ps : List Part) (st : MuxState) :
    (gen_run st ps).1.answer =
      st.answer ++ concatStrings ((ps.filter (fun p => !p.thought)).map Part.text) := by
  induction ps generalizing st with
  | nil => exact (String.append_empty _).symm
  | cons p ps ih =>
    rw [gen_run_cons]
    by_cases ht : p.text = ""
    · cases hth : p.thought
      · rw [gen_step_of_empty st p ht]
        rw [ih st]
        simp [List.filter_cons, hth, concatStrings, ht, String.empty_append]
      · rw [gen_step_of_empty st p ht]
        rw [ih st]
        simp [List.filter_cons, hth]
    · cases hth : p.thought
      · rw [gen_step_of_answer st p hth ht]
        rw [ih]
        simp [List.filter_cons, hth, concatStrings, String.append_assoc]
      · rw [gen_step_of_thought st p hth ht]
        rw [ih]
        simp [List.filter_cons, hth]

theorem concat_filter_nonempty (ps : List Part) :
    concatStrings ((ps.filter (fun p => !p.thought && !(p.text == ""))).map Part.text) =
      concatStrings ((ps.filter (fun p => !p.thought)).map Part.text) := by
  induction ps with
  | nil => rfl
  | cons p ps ih =>
    by_cases ht : p.text = ""
    · cases hth : p.thought <;>
        simp [List.filter_cons, ht, hth, concatStrings, ih, String.empty_append]
    · cases hth : p.thought <;>
        simp [List.filter_cons, ht, hth, concatStrings, ih]

/-- C7 stated on the code as written fails at the empty-text boundary: the
stream `[⟨"", false⟩]` holds one non-thought fragment, but no increment at
all is yielded for it (`if not text: continue` skips it); only the joined
output, not the per-fragment increment sequence, is preserved. -/
theorem gen_chunks_no_increment_for_empty_answer :
    (Part.mk "" false).thought = false ∧
      (gen_chunks [Part.mk "" false]).2 = [] ∧
      yieldTexts (gen_chunks [Part.mk "" false]).2 ≠ [""] := by
  decide

/-- C7 (amended to non-empty fragments): every non-thought fragment with
non-empty text is yielded immediately as one increment — the output
sequence is exactly the texts of those fragments in arrival order — and the
joined output equals the accumulated answer buffer, which in turn is the
concatenation, in arrival order, of *all* non-thought fragment texts
(empty texts contribute nothing to the concatenation). -/
theorem gen_chunks_output_is_answer_concat :
    ∀ ps : List Part,
      yieldTexts (gen_chunks ps).2 =
          (ps.filter (fun p => !p.thought && !(p.text == ""))).map Part.text ∧
        concatStrings (yieldTexts (gen_chunks ps).2) = (gen_chunks ps).1.answer ∧
        (gen_chunks ps).1.answer =
          concatStrings ((ps.filter (fun p => !p.thought)).map Part.text) := by
  intro ps
  have hy := gen_run_yields ps muxInit
  have ha := gen_run_answer ps muxInit
  refine ⟨hy, ?_, ?_⟩
  · show concatStrings (yieldTexts (gen_run muxInit ps).2) = (gen_run muxInit ps).1.answer
    rw [hy, concat_filter_nonempty, ha]
    exact (String.empty_append _).symm
  · show (gen_run muxInit ps).1.answer = _
    rw [ha]
    exact String.empty_append _

/-! ## Aggregation-level error signalling -/

/-- C1 stated on the code as written fails: `NoActivity` and `NoVocabulary`
are both raised as a *plain* `Exception` (`raise Exception("...")`), so
their error kind (exception class) is one and the same — the two concrete
worlds below produce raised values of identical class, distinguishable only
by their message strings. -/
theorem get_vocab_no_activity_no_vocab_share_class :
    raisedClass (get_vocab 30 "t" none
        ⟨Except.ok [], fun _ => Except.ok []⟩) = some ExcClass.exception ∧
      raisedClass (get_vocab 30 "t" none
        ⟨Except.ok [101], fun _ => Except.ok []⟩) = some ExcClass.exception := by
  decide

/-- C1 (amended): the three aggregation failures remain pairwise
distinguishable to the caller, but not all by error kind alone:
`EndpointDown` is raised with the distinct class `ReviewEndpointDown`,
while `NoActivity` and `NoVocabulary` are both raised with the plain
`Exception` class and are told apart only by their distinct messages
(`"No recent reviews found"` vs `"No vocabulary among those reviews"`). -/
theorem get_vocab_conditions_distinguishable (m : Nat) (t : String)
    (env : Option String) (w : World) (ht : t ≠ "") :
    (∀ e, w.resolve = Except.error e → e.cls = ExcClass.reviewEndpointDown →
        get_vocab m t env w =
          Outcome.raised ⟨ExcClass.reviewEndpointDown, e.msg⟩) ∧
    (w.resolve = Except.ok [] →
        get_vocab m t env w =
          Outcome.raised ⟨ExcClass.exception, "No recent reviews found"⟩) ∧
    (∀ ids, w.resolve = Except.ok ids → ids ≠ [] → w.gather ids = Except.ok [] →
        get_vocab m t env w =
          Outcome.raised ⟨ExcClass.exception, "No vocabulary among those reviews"⟩) ∧
    ((⟨ExcClass.exception, "No recent reviews found"⟩ : PyExc) ≠
        ⟨ExcClass.exception, "No vocabulary among those reviews"⟩) ∧
    (∀ msg : String,
        (⟨ExcClass.reviewEndpointDown, msg⟩ : PyExc).cls ≠
            (⟨ExcClass.exception, "No recent reviews found"⟩ : PyExc).cls ∧
          (⟨ExcClass.reviewEndpointDown, msg⟩ : PyExc).cls ≠
            (⟨ExcClass.exception, "No vocabulary among those reviews"⟩ : PyExc).cls ∧
          (⟨ExcClass.exception, "No recent reviews found"⟩ : PyExc).cls =
            (⟨ExcClass.exception, "No vocabulary among those reviews"⟩ : PyExc).cls) := by
  refine ⟨?_, ?_, ?_, by decide,
    fun msg => ⟨fun h => ExcClass.noConfusion h, fun h => ExcClass.noConfusion h, rfl⟩⟩
  · intro e hres hcls
    simp [get_vocab, ht, hres, hcls]
  · intro hres
    simp [get_vocab, ht, hres]
  · intro ids hres hne hg
    simp [get_vocab, ht, hres, hne, hg]

/-- Closed instance of the amended C1 theorem: a world with activity but no
vocabulary makes `get_vocab` raise the plain-`Exception` `NoVocabulary`
signal. -/
theorem get_vocab_conditions_distinguishable_witness :
    ("t" ≠ "") ∧
      get_vocab 30 "t" none ⟨Except.ok [101], fun _ => Except.ok []⟩ =
        Outcome.raised ⟨ExcClass.exception, "No vocabulary among those reviews"⟩ :=
  ⟨by decide,
   (get_vocab_conditions_distinguishable 30 "t" none
      ⟨Except.ok [101], fun _ => Except.ok []⟩ (by decide)).2.2.1 [101] rfl
      (by decide) rfl⟩

/-- C5 stated on the spec's words fails for the missing-credential case:
with no `--api-token` and no `WANIKANI_API_TOKEN`, `get_vocab` calls
`sys.exit(1)`; `SystemExit` is not an `Exception` subclass, so the call
site's `except Exception` does not catch it and the session aborts instead
of continuing with an empty vocabulary list. -/
theorem sessionStart_aborts_on_missing_credential :
    sessionStart none ⟨Except.ok [1], fun _ => Except.ok ["a"]⟩ =
      SessionOutcome.aborts 1 := by
  decide

/-- C5 (amended): every aggregation failure that is raised as an
`Exception` (EndpointDown, NoActivity, NoVocabulary, any request error) is
caught at the call site, which pre-populates the input region with the
empty vocabulary list and lets the session keep functioning; a successful
aggregation flows through unchanged; but a missing credential terminates
the process via `sys.exit(1)`, which the `except Exception` handler does
not catch. -/
theorem sessionStart_survives_raised_failures :
    (∀ (env : Option String) (w : World) (e : PyExc),
        get_vocab 1440 "" env w = Outcome.raised e →
        sessionStart env w = SessionOutcome.continues []) ∧
    (∀ (env : Option String) (w : World) (v : List String),
        get_vocab 1440 "" env w = Outcome.ok v →
        sessionStart env w = SessionOutcome.continues v) ∧
    (∀ w : World, sessionStart none w = SessionOutcome.aborts 1) := by
  refine ⟨?_, ?_, fun w => rfl⟩
  · intro env w e h
    unfold sessionStart
    rw [h]
  · intro env w v h
    unfold sessionStart
    rw [h]

/-- Closed instance of the amended C5 theorem: the `NoActivity` failure is
caught and the session continues with the empty vocabulary list. -/
theorem sessionStart_survives_raised_failures_witness :
    get_vocab 1440 "" (some "tok") ⟨Except.ok [], fun _ => Except.ok []⟩ =
        Outcome.raised ⟨ExcClass.exception, "No recent reviews found"⟩ ∧
      sessionStart (some "tok") ⟨Except.ok [], fun _ => Except.ok []⟩ =
        SessionOutcome.continues [] :=
  ⟨by decide,
   sessionStart_survives_raised_failures.1 (some "tok")
     ⟨Except.ok [], fun _ => Except.ok []⟩
     ⟨ExcClass.exception, "No recent reviews found"⟩ (by decide)⟩

/-- C10: when the `api_token` parameter is non-empty, the outcome of
`get_vocab` — its value and whether and how it fails — is the same whatever
the `WANIKANI_API_TOKEN` environment variable holds: `api_token or
os.getenv(...)` consults the environment only when the parameter is the
empty string. -/
theorem get_vocab_ignores_env_when_token_given :
    ∀ (m : Nat) (t : String) (env env' : Option String) (w : World),
      t ≠ "" → get_vocab m t env w = get_vocab m t env' w := by
  intro m t env env' w ht
  simp [get_vocab, ht]

/-- Closed instance of C10: with the explicit token `"tok"`, an unset and a
set environment variable give identical outcomes. -/
theorem get_vocab_ignores_env_when_token_given_witness :
    ("tok" ≠ "") ∧
      get_vocab 30 "tok" none demoWorld =
        get_vocab 30 "tok" (some "other") demoWorld :=
  ⟨by decide,
   get_vocab_ignores_env_when_token_given 30 "tok" none (some "other")
     demoWorld (by decide)⟩

/-! ## Per-request error classification in `fetch_paginated` -/

/-- C2: a server-error status (here 503) is signalled as the distinct
retryable `ReviewEndpointDown`, and a client-error status (here 404)
propagates as an ordinary `requests.exceptions.HTTPError` — but a network
timeout is NOT turned into `ReviewEndpointDown`: `requests.get(...,
timeout=30)` raises `requests.exceptions.Timeout`, which `fetch_paginated`
never catches, so it propagates as a distinct third exception class,
contradicting `ReviewEndpointDown`'s own docstring ("Raised when the
reviews endpoint is unavailable (HTTP 5xx or timeout)"). -/
theorem handle_response_timeout_divergence :
    handle_response (ReqResult.response 503 "oops" (⟨[], none⟩ : Page Nat)) =
        Except.error ⟨ExcClass.reviewEndpointDown, "oops"⟩ ∧
      handle_response (ReqResult.response 404 "nf" (⟨[], none⟩ : Page Nat)) =
        Except.error ⟨ExcClass.httpError, "nf"⟩ ∧
      handle_response (ReqResult.timeout : ReqResult Nat) =
        Except.error ⟨ExcClass.timeout, "requests.exceptions.Timeout"⟩ ∧
      ExcClass.timeout ≠ ExcClass.reviewEndpointDown ∧
      (∀ (status : Nat) (body : String) (payload : Page Nat), 500 ≤ status →
        handle_response (ReqResult.response status body payload) =
          Except.error ⟨ExcClass.reviewEndpointDown, body⟩) ∧
      (∀ (status : Nat) (body : String) (payload : Page Nat),
        400 ≤ status → status < 500 →
        handle_response (ReqResult.response status body payload) =
          Except.error ⟨ExcClass.httpError, body⟩) := by
  refine ⟨rfl, rfl, rfl, by decide, ?_, ?_⟩
  · intro status body payload h
    simp [handle_response, h]
  · intro status body payload h1 h2
    have h5 : ¬ 500 ≤ status := by omega
    simp [handle_response, h5, h1]

/-! ## Pagination over a cursor chain -/

theorem fetch_paginated_eq_flatten {α : Type} :
    ∀ pages : List (Page α), wellFormedChain pages = true →
      fetch_paginated pages = (pages.map Page.data).flatten := by
  intro pages
  induction pages with
  | nil => intro _; rfl
  | cons p ps ih =>
    intro h
    rw [wellFormedChain, Bool.and_eq_true, beq_iff_eq] at h
    obtain ⟨h1, h2⟩ := h
    cases hn : p.next_url with
    | none =>
      rw [hn] at h1
      have hps : ps = [] := List.isEmpty_iff.mp h1.symm
      subst hps
      simp [fetch_paginated, hn]
    | some u =>
      rw [hn] at h1
      simp only [fetch_paginated, hn, List.map_cons, List.flatten_cons]
      rw [ih h2]

/-- C6: over any well-formed finite cursor chain of pages, `fetch_paginated`
yields exactly the concatenation of the pages' `data` arrays in page order
(each page's records in payload order before advancing, by construction of
the concatenation), terminating exactly when `next_url` is absent (the
well-formedness of the chain); the total number of yielded records is the
sum of the per-page counts. -/
theorem fetch_paginated_yields_all_pages {α : Type} (pages : List (Page α))
    (h : wellFormedChain pages = true) :
    fetch_paginated pages = (pages.map Page.data).flatten ∧
      (fetch_paginated pages).length =
        (pages.map (fun p => p.data.length)).sum := by
  have h1 := fetch_paginated_eq_flatten pages h
  refine ⟨h1, ?_⟩
  rw [h1, List.length_flatten, List.map_map]
  rfl

/-- Closed instance of C6: a two-page chain (`[1, 2]` then `[3]`) yields
`[1, 2, 3]`, three records in total. -/
theorem fetch_paginated_yields_all_pages_witness :
    wellFormedChain [(⟨[1, 2], some "u2"⟩ : Page Nat), ⟨[3], none⟩] = true ∧
      fetch_paginated [(⟨[1, 2], some "u2"⟩ : Page Nat), ⟨[3], none⟩] =
          ([(⟨[1, 2], some "u2"⟩ : Page Nat), ⟨[3], none⟩].map Page.data).flatten ∧
        (fetch_paginated [(⟨[1, 2], some "u2"⟩ : Page Nat), ⟨[3], none⟩]).length =
          ([(⟨[1, 2], some "u2"⟩ : Page Nat), ⟨[3], none⟩].map
            (fun p => p.data.length)).sum :=
  ⟨by decide,
   fetch_paginated_yields_all_pages [(⟨[1, 2], some "u2"⟩ : Page Nat), ⟨[3], none⟩]
     (by decide)⟩

/-! ## Batch partitioning -/

theorem chunked_flatten (seq : List Int) (size : Nat) (h : 0 < size) :
    (chunked seq size).flatten = seq := by
  match seq with
  | [] =>
    rw [chunked]
    rfl
  | x :: xs =>
    have ih := chunked_flatten ((x :: xs).drop size) size h
    rw [chunked, if_neg (Nat.pos_iff_ne_zero.mp h), List.flatten_cons, ih]
    exact List.take_append_drop size (x :: xs)
  termination_by seq.length
  decreasing_by
    simp only [List.length_drop, List.length_cons]
    omega

theorem chunked_batch_le (seq : List Int) (size : Nat) :
    ∀ b ∈ chunked seq size, b.length ≤ size := by
  match seq with
  | [] =>
    rw [chunked]
    intro b hb
    exact absurd hb (List.not_mem_nil b)
  | x :: xs =>
    by_cases hz : size = 0
    · rw [chunked, if_pos hz]
      intro b hb
      exact absurd hb (List.not_mem_nil b)
    · have ih := chunked_batch_le ((x :: xs).drop size) size
      rw [chunked, if_neg hz]
      intro b hb
      rcases List.mem_cons.mp hb with hb | hb
      · subst hb
        rw [List.length_take]
        exact min_le_left _ _
      · exact ih b hb
  termination_by seq.length
  decreasing_by
    simp only [List.length_drop, List.length_cons]
    omega

theorem chunked_length_eq (seq : List Int) (size : Nat) (h : 0 < size) :
    (chunked seq size).length = (seq.length + size - 1) / size := by
  match seq with
  | [] =>
    rw [chunked]
    simp only [List.length_nil, Nat.zero_add]
    exact (Nat.div_eq_of_lt (by omega)).symm
  | x :: xs =>
    have ih := chunked_length_eq ((x :: xs).drop size) size h
    rw [chunked, if_neg (Nat.pos_iff_ne_zero.mp h), List.length_cons, ih]
    rw [List.length_drop]
    rw [show (x :: xs).length + size - 1 = ((x :: xs).length - 1) + size by
      simp only [List.length_cons]; omega]
    rw [Nat.add_div_right _ h]
    by_cases hle : (x :: xs).length ≤ size
    · rw [show (x :: xs).length - size = 0 by omega]
      rw [show (0 : Nat) + size - 1 = size - 1 by omega]
      rw [Nat.div_eq_of_lt (by omega), Nat.div_eq_of_lt (by simp at hle ⊢; omega)]
    · rw [show (x :: xs).length - size + size - 1 = (x :: xs).length - 1 by omega]
  termination_by seq.length
  decreasing_by
    simp only [List.length_drop, List.length_cons]
    omega

theorem mem_of_mem_chunked (seq : List Int) (size : Nat) (h : 0 < size)
    (b : List Int) (hb : b ∈ chunked seq size) : ∀ y ∈ b, y ∈ seq := by
  intro y hy
  have : y ∈ (chunked seq size).flatten := List.mem_flatten.mpr ⟨b, hb, hy⟩
  rwa [chunked_flatten seq size h] at this

theorem chunked_countP_zero (seq : List Int) (size : Nat) (h : 0 < size)
    (x : Int) (hx : x ∉ seq) :
    (chunked seq size).countP (fun b => decide (x ∈ b)) = 0 := by
  rw [List.countP_eq_zero]
  intro b hb
  simp only [decide_eq_true_eq]
  intro hxb
  exact hx (mem_of_mem_chunked seq size h b hb x hxb)

theorem chunked_countP_one (seq : List Int) (size : Nat) (h : 0 < size)
    (hnd : seq.Nodup) :
    ∀ x ∈ seq, (chunked seq size).countP (fun b => decide (x ∈ b)) = 1 := by
  match seq with
  | [] =>
    intro x hx
    exact absurd hx (List.not_mem_nil x)
  | x0 :: xs =>
    intro x hx
    have hsplit : (x0 :: xs).take size ++ (x0 :: xs).drop size = x0 :: xs :=
      List.take_append_drop size (x0 :: xs)
    have hnd' : ((x0 :: xs).take size ++ (x0 :: xs).drop size).Nodup := by
      rw [hsplit]; exact hnd
    obtain ⟨hnd1, hnd2, hdisj⟩ := List.nodup_append.mp hnd'
    have ih := chunked_countP_one ((x0 :: xs).drop size) size h hnd2
    rw [chunked, if_neg (Nat.pos_iff_ne_zero.mp h), List.countP_cons]
    have hx' : x ∈ (x0 :: xs).take size ++ (x0 :: xs).drop size := by
      rw [hsplit]; exact hx
    rcases List.mem_append.mp hx' with hmem | hmem
    · have hnot : x ∉ (x0 :: xs).drop size := fun hc => hdisj hmem hc
      rw [chunked_countP_zero _ size h x hnot]
      simp [hmem]
    · have hnot : x ∉ (x0 :: xs).take size := fun hc => hdisj hc hmem
      rw [ih x hmem]
      simp [hnot]
  termination_by seq.length
  decreasing_by
    simp only [List.length_drop, List.length_cons]
    omega

/-- C8: for any duplicate-free list of `K` subject identifiers (the order
`list(subject_ids)` enumerates the set in) and any positive batch size `B`
(the code passes `B = CHUNK = 1000`), `chunked` partitions the identifiers
into exactly `ceil(K / B) = (K + B - 1) / B` batches, every batch holds at
most `B` identifiers, and every identifier appears in exactly one batch. -/
theorem chunked_partitions (seq : List Int) (size : Nat) (h : 0 < size)
    (hnd : seq.Nodup) :
    (chunked seq size).length = (seq.length + size - 1) / size ∧
      (∀ b ∈ chunked seq size, b.length ≤ size) ∧
      (∀ x ∈ seq, (chunked seq size).countP (fun b => decide (x ∈ b)) = 1) :=
  ⟨chunked_length_eq seq size h, chunked_batch_le seq size,
   chunked_countP_one seq size h hnd⟩

/-- Closed instance of C8 at the code's batch size `CHUNK = 1000`: three
distinct identifiers make `ceil(3/1000) = 1` batch of at most 1000 IDs,
each identifier appearing in exactly one batch. -/
theorem chunked_partitions_witness :
    0 < CHUNK ∧ ([7, 8, 9] : List Int).Nodup ∧
      ((chunked [7, 8, 9] CHUNK).length = (([7, 8, 9] : List Int).length + CHUNK - 1) / CHUNK ∧
        (∀ b ∈ chunked [7, 8, 9] CHUNK, b.length ≤ CHUNK) ∧
        (∀ x ∈ ([7, 8, 9] : List Int),
          (chunked [7, 8, 9] CHUNK).countP (fun b => decide (x ∈ b)) = 1)) :=
  ⟨by decide, by decide, chunked_partitions [7, 8, 9] CHUNK (by decide) (by decide)⟩

/-! ## Deduplication and case-insensitive ordering -/

/-- C4 stated on the code as written over-promises the tie order: CPython
leaves the iteration order of `set(vocab)` unspecified (string hashes are
randomized per process), and `sorted(..., key=str.lower)` is stable, so the
relative order of the equal-key strings `"Apple"` and `"apple"` follows the
set's enumeration order.  The enumeration below is a legitimate order of
`set(["banana", "Apple", "apple", "Cherry"])` and yields
`["apple", "Apple", "banana", "Cherry"]`, not the claimed
`["Apple", "apple", "banana", "Cherry"]`. -/
theorem gather_vocab_subjects_tie_order_not_fixed :
    isSetOrder (collectVocabSlugs demoSubjects)
        ["banana", "apple", "Apple", "Cherry"] ∧
      gather_vocab_subjects demoSubjects ["banana", "apple", "Apple", "Cherry"] =
        ["apple", "Apple", "banana", "Cherry"] ∧
      (["apple", "Apple", "banana", "Cherry"] : List String) ≠
        ["Apple", "apple", "banana", "Cherry"] := by
  decide

/-- C4 (amended): for the raw slugs `["banana", "Apple", "apple", "Cherry"]`
(all vocabulary-kind), whatever enumeration order `set` produces, the output
is deduplicated under case-sensitive identity — length 4, both `"Apple"`
and `"apple"` retained — and sorted by the case-insensitive comparator; it
is `["Apple", "apple", "banana", "Cherry"]` up to the unspecified relative
order of the equal-key pair `"Apple"`/`"apple"` (the only other possibility
being `["apple", "Apple", "banana", "Cherry"]`). -/
theorem gather_vocab_subjects_dedup_sort (s : List String)
    (hs : isSetOrder (collectVocabSlugs demoSubjects) s) :
    (gather_vocab_subjects demoSubjects s).length = 4 ∧
      (gather_vocab_subjects demoSubjects s =
          ["Apple", "apple", "banana", "Cherry"] ∨
        gather_vocab_subjects demoSubjects s =
          ["apple", "Apple", "banana", "Cherry"]) := by
  obtain ⟨hnd, hsub, hsup⟩ := hs
  have horig : collectVocabSlugs demoSubjects =
      ["banana", "Apple", "apple", "Cherry"] := by decide
  rw [horig] at hsub hsup
  have hnd0 : (["banana", "Apple", "apple", "Cherry"] : List String).Nodup := by
    decide
  have hperm : s.Perm ["banana", "Apple", "apple", "Cherry"] :=
    (List.perm_ext_iff_of_nodup hnd hnd0).mpr
      (fun a => ⟨fun ha => hsub a ha, fun ha => hsup a ha⟩)
  have hmem : s ∈ (["banana", "Apple", "apple", "Cherry"] : List String).permutations' :=
    List.mem_permutations'.mpr hperm
  have key : ∀ t ∈ (["banana", "Apple", "apple", "Cherry"] : List String).permutations',
      (pySortedByLower t).length = 4 ∧
        (pySortedByLower t = ["Apple", "apple", "banana", "Cherry"] ∨
          pySortedByLower t = ["apple", "Apple", "banana", "Cherry"]) := by
    decide
  exact key s hmem

/-- Closed instance of the amended C4 theorem, at the insertion-order
enumeration of the set. -/
theorem gather_vocab_subjects_dedup_sort_witness :
    isSetOrder (collectVocabSlugs demoSubjects)
        ["banana", "Apple", "apple", "Cherry"] ∧
      ((gather_vocab_subjects demoSubjects
          ["banana", "Apple", "apple", "Cherry"]).length = 4 ∧
        (gather_vocab_subjects demoSubjects ["banana", "Apple", "apple", "Cherry"] =
            ["Apple", "apple", "banana", "Cherry"] ∨
          gather_vocab_subjects demoSubjects ["banana", "Apple", "apple", "Cherry"] =
            ["apple", "Apple", "banana", "Cherry"])) :=
  ⟨by decide, gather_vocab_subjects_dedup_sort _ (by decide)⟩

end WKReview
